import Mathlib

set_option linter.unusedVariables false

/-!
Shallow embedding of `OptimalTour.py`: the input validator (`parse_input`),
the problem constructor (`OptimalTour.__init__`, here `OptimalTour.ofStdin`),
and the tour scorer (`OptimalTour.parse_output`, here `parse_output`).

Machine integers are `Int` (Python integers are unbounded), the `value`
field is `Rat` (the code only compares it with `0` and sums it; modelling
the float as an exact rational keeps those operations faithful for the
decimal literals the format carries).  Python `set` becomes `Finset`,
fallible code returns `Except`/`Option`.
-/

/-- Characters treated as separators by Python `str.split()` (ASCII whitespace). -/
def isPyWS (c : Char) : Bool :=
  c == ' ' || c == '\t' || c == '\n' || c == '\r' || c == '\x0b' || c == '\x0c'

/-- Accumulator pass behind `pySplitWS`; `cur` holds the current token reversed. -/
def tokenizeGo (cur : List Char) : List Char → List (List Char)
  | [] => if cur.isEmpty then [] else [cur.reverse]
  | c :: cs =>
    if isPyWS c then
      if cur.isEmpty then tokenizeGo [] cs
      else cur.reverse :: tokenizeGo [] cs
    else tokenizeGo (c :: cur) cs

/-- Python `line.split()`: whitespace-separated tokens, empty tokens dropped. -/
def pySplitWS (s : String) : List String :=
  (tokenizeGo [] s.data).map (fun cs => String.mk cs)

/-- Split a character list at every occurrence of `sep`, keeping empty pieces. -/
def splitListOn (sep : Char) : List Char → List (List Char)
  | [] => [[]]
  | c :: cs =>
    if c == sep then [] :: splitListOn sep cs
    else
      match splitListOn sep cs with
      | [] => [[c]]
      | h :: t => (c :: h) :: t

/-- Python `stdin.split('\n')`. -/
def pyLines (s : String) : List String :=
  (splitListOn '\n' s.data).map (fun cs => String.mk cs)

/-- Numeric value of a digit string (most significant first). -/
def digitsVal (cs : List Char) : Nat :=
  cs.foldl (fun n c => n * 10 + (c.toNat - 48)) 0

/-- Nonempty all-digit character list. -/
def isDigits (cs : List Char) : Bool :=
  !cs.isEmpty && cs.all Char.isDigit

/-- Python `int(s)` on a whitespace-free token: optional sign then digits;
anything else raises `ValueError`, modelled as `none`. -/
def pyInt (s : String) : Option Int :=
  match s.data with
  | '-' :: cs => if isDigits cs then some (-(digitsVal cs : Int)) else none
  | '+' :: cs => if isDigits cs then some ((digitsVal cs : Int)) else none
  | cs => if isDigits cs then some ((digitsVal cs : Int)) else none

/-- Magnitude part of `pyFloat`: plain decimal forms `digits`, `digits.digits`,
`.digits`, `digits.` (exponents and `inf`/`nan` are not exercised here).
Built with `mkRat` so that concrete inputs evaluate definitionally. -/
def pyFloatMag (cs : List Char) : Option Rat :=
  let ip := cs.takeWhile (fun c => c != '.')
  match cs.dropWhile (fun c => c != '.') with
  | [] => if isDigits cs then some (mkRat (digitsVal cs) 1) else none
  | _ :: fp =>
    if ip.all Char.isDigit && fp.all Char.isDigit && (!ip.isEmpty || !fp.isEmpty) then
      some (mkRat ((digitsVal ip : Int) * ((10 : Nat) ^ fp.length : Nat) + (digitsVal fp : Int))
        ((10 : Nat) ^ fp.length))
    else none

/-- Python `float(s)` on the decimal tokens the format uses, as an exact `Rat`. -/
def pyFloat (s : String) : Option Rat :=
  match s.data with
  | '-' :: cs => (pyFloatMag cs).map (fun q => -q)
  | '+' :: cs => pyFloatMag cs
  | cs => pyFloatMag cs

/-- Rational addition written through `mkRat` so that it evaluates
definitionally on concrete inputs (`Rat.add` is `@[irreducible]`); it is
extensionally equal to `+` (`ratAdd_eq_add` below). -/
def ratAdd (a b : Rat) : Rat :=
  mkRat (a.num * (b.den : Int) + b.num * (a.den : Int)) (a.den * b.den)

/-- Decidable equality on `Except`, needed to evaluate concrete runs. -/
instance {ε α : Type} [DecidableEq ε] [DecidableEq α] : DecidableEq (Except ε α) := fun a b =>
  match a, b with
  | .ok x, .ok y =>
    if h : x = y then isTrue (congrArg Except.ok h)
    else isFalse (fun hh => h (by injection hh))
  | .ok _, .error _ => isFalse (fun hh => Except.noConfusion hh)
  | .error _, .ok _ => isFalse (fun hh => Except.noConfusion hh)
  | .error x, .error y =>
    if h : x = y then isTrue (congrArg Except.error h)
    else isFalse (fun hh => h (by injection hh))

/-- Python `ln[0][0].isdigit()` on a token. -/
def isDigitLeading (t : String) : Bool :=
  match t.data with
  | [] => false
  | c :: _ => c.isDigit

/-- The scorer's `while lines and not lines[-1]: lines.pop()`: drop trailing
empty-string lines. -/
def rtrimEmpty (ls : List String) : List String :=
  (ls.reverse.dropWhile (fun l => l == "")).reverse

/-- Python `l[i] = v` where the intended index range is `[0, len)`; a Python
negative index would wrap around, which the safety claims treat as an
out-of-range access, so the model rejects it. -/
def setAt {α : Type} (l : List α) (i : Int) (v : α) : Option (List α) :=
  if 0 ≤ i ∧ i.toNat < l.length then some (l.set i.toNat v) else none

/-! ## Validator (`parse_input`) -/

/-- Mutable state of the `parse_input` scan over lines. `n_site` and `n_day`
are the running maxima of the site ids / day numbers seen so far, exactly as
in the source (`n_site = max(n_site, site)`). -/
structure VState where
  state : Nat
  n_site : Int
  n_day : Int
  sites : Finset Int
  locations : Finset (Int × Int)
  sitedays : Finset (Int × Int)
  deriving DecidableEq

/-- Rejection reasons of `parse_input`, one constructor per `raise` site.
Lines that fail Python `int()`/`float()` conversion raise `ValueError`
at that line; the model folds that into `invalidLine`. -/
inductive VErr where
  | invalidLine (lnum : Nat)
  | siteTooLarge (n : Int)
  | invalidSiteId (lnum : Nat)
  | invalidDesiredTime (lnum : Nat)
  | invalidValue (lnum : Nat)
  | dupSiteId (lnum : Nat)
  | dupLocation (lnum : Nat)
  | mismatchedSiteCount
  | dayTooLarge (n : Int)
  | invalidHours (lnum : Nat)
  | dupSiteDay (lnum : Nat)
  | unexpectedEOF
  | mismatchedSecondPart
  | missingSite (site : Int)
  | missingDay (day : Int) (site : Int)
  deriving DecidableEq

/-- Line number carried by a rejection, when its message has one. -/
def VErr.lnum? : VErr → Option Nat
  | .invalidLine n => some n
  | .invalidSiteId n => some n
  | .invalidDesiredTime n => some n
  | .invalidValue n => some n
  | .dupSiteId n => some n
  | .dupLocation n => some n
  | .invalidHours n => some n
  | .dupSiteDay n => some n
  | _ => none

/-- State 0: the line must be the exact first header. -/
def state0Line (st : VState) (lnum : Nat) (ln : List String) : Except VErr VState :=
  if ln = ["site", "avenue", "street", "desiredtime", "value"] then
    .ok { st with state := 1 }
  else .error (.invalidLine lnum)

/-- State 1, digit-leading line: a site record
`site avenue street desiredtime value`. -/
def state1Digit (st : VState) (lnum : Nat) (ln : List String) : Except VErr VState :=
  match ln with
  | [t0, t1, t2, t3, t4] =>
    match pyInt t0, pyInt t1, pyInt t2, pyInt t3, pyFloat t4 with
    | some site, some avenue, some street, some desired_time, some value =>
      if 200 < max st.n_site site then .error (.siteTooLarge (max st.n_site site))
      else if ¬ 1 ≤ site then .error (.invalidSiteId lnum)
      else if ¬ (1 ≤ desired_time ∧ desired_time ≤ 1440) then .error (.invalidDesiredTime lnum)
      else if ¬ 0 < value then .error (.invalidValue lnum)
      else if site ∈ st.sites then .error (.dupSiteId lnum)
      else if (avenue, street) ∈ st.locations then .error (.dupLocation lnum)
      else .ok { st with n_site := max st.n_site site, sites := insert site st.sites,
                         locations := insert (avenue, street) st.locations }
    | _, _, _, _, _ => .error (.invalidLine lnum)
  | _ => .error (.invalidLine lnum)

/-- State 1, non-digit-leading line: must be the second header, and the
count of distinct sites must equal the running maximum site id. -/
def state1Other (st : VState) (lnum : Nat) (ln : List String) : Except VErr VState :=
  if ln = ["site", "day", "beginhour", "endhour"] then
    if (st.sites.card : Int) = st.n_site then .ok { st with state := 2 }
    else .error .mismatchedSiteCount
  else .error (.invalidLine lnum)

/-- State 2: an opening-window record `site day beginhour endhour`. -/
def state2Line (st : VState) (lnum : Nat) (ln : List String) : Except VErr VState :=
  match ln with
  | [t0, t1, t2, t3] =>
    match pyInt t0, pyInt t1, pyInt t2, pyInt t3 with
    | some site, some day, some begin_hour, some end_hour =>
      if 10 < max st.n_day day then .error (.dayTooLarge (max st.n_day day))
      else if ¬ (1 ≤ site ∧ site ≤ st.n_site) then .error (.invalidSiteId lnum)
      else if ¬ (0 ≤ begin_hour ∧ begin_hour ≤ end_hour ∧ end_hour ≤ 23) then
        .error (.invalidHours lnum)
      else if (site, day) ∈ st.sitedays then .error (.dupSiteDay lnum)
      else .ok { st with n_day := max st.n_day day,
                         sitedays := insert (site, day) st.sitedays }
    | _, _, _, _ => .error (.invalidLine lnum)
  | _ => .error (.invalidLine lnum)

/-- Process one raw line of the input in the current state; blank lines
(no tokens) are skipped. -/
def stepLine (st : VState) (lnum : Nat) (line : String) : Except VErr VState :=
  match pySplitWS line with
  | [] => .ok st
  | t0 :: ts =>
    if st.state = 0 then state0Line st lnum (t0 :: ts)
    else if st.state = 1 then
      if isDigitLeading t0 then state1Digit st lnum (t0 :: ts)
      else state1Other st lnum (t0 :: ts)
    else state2Line st lnum (t0 :: ts)

/-- The `for lnum, line in enumerate(stdin.split('\n'), start=1)` loop. -/
def scanValid (st : VState) (lnum : Nat) : List String → Except VErr VState
  | [] => .ok st
  | line :: rest =>
    match stepLine st lnum line with
    | .error e => .error e
    | .ok st2 => scanValid st2 (lnum + 1) rest

/-- Initial scan state: `state = 0`, `n_site = n_day = 0`, empty sets. -/
def initVState : VState := ⟨0, 0, 0, ∅, ∅, ∅⟩

/-- Python `range(1, n + 1)` as a list of integers (empty when `n ≤ 0`). -/
def intRange1 (n : Int) : List Int :=
  (List.range n.toNat).map (fun i => ((i + 1 : Nat) : Int))

/-- The post-scan missing-site / missing-(site,day) loops: first missing item
in ascending site order, days ascending within a site. -/
def missingResult (st : VState) : Option VErr :=
  (intRange1 st.n_site).findSome? (fun site =>
    if site ∉ st.sites then some (.missingSite site)
    else (intRange1 st.n_day).findSome? (fun day =>
      if (site, day) ∉ st.sitedays then some (.missingDay day site) else none))

/-- `parse_input` on the raw text (the file read is external IO, omitted):
scan all lines, then the EOF / count / missing checks, in source order. -/
def parse_input (stdin : String) : Except VErr VState :=
  match scanValid initVState 1 (pyLines stdin) with
  | .error e => .error e
  | .ok st =>
    if st.state ≠ 2 then .error .unexpectedEOF
    else if st.n_day * st.n_site ≠ (st.sitedays.card : Int) then .error .mismatchedSecondPart
    else
      match missingResult st with
      | some e => .error e
      | none => .ok st

/-! ## Problem constructor (`OptimalTour.__init__`)

The source initializes `self.beghr = [[0] * n_site] * n_day` (same for
`endhr`), which makes every day alias ONE shared row; an assignment
`self.beghr[day][site] = v` therefore writes through to all days.  The model
stores that single shared row (`beghrRow` / `endhrRow`) and reads of
`self.beghr[day][site]` go to it for every `day`. -/

/-- A constructed problem.  `beghrRow`/`endhrRow` are the single shared
window row produced by the aliased `[[0] * n_site] * n_day`. -/
structure OptimalTour where
  stdin : String
  n_site : Int
  n_day : Int
  x : List Int
  y : List Int
  val : List Rat
  time : List Int
  beghrRow : List Int
  endhrRow : List Int
  deriving DecidableEq

/-- Read of `self.beghr[day][site]`: because of the row aliasing, the result
does not depend on `day`. -/
def OptimalTour.beghr (p : OptimalTour) (day site : Nat) : Int :=
  p.beghrRow.getD site 0

/-- Read of `self.endhr[day][site]`: day-independent for the same reason. -/
def OptimalTour.endhr (p : OptimalTour) (day site : Nat) : Int :=
  p.endhrRow.getD site 0

/-- Mutable state of the constructor's (unchecked) second parse. -/
structure CState where
  st : Nat
  x : List Int
  y : List Int
  val : List Rat
  time : List Int
  begRow : List Int
  endRow : List Int
  deriving DecidableEq

/-- Constructor handling of a digit-leading State-1 line:
`self.x[site] = int(ln[1])` and so on; `none` models an uncaught
`IndexError`/`ValueError`. -/
def ctorSite (c : CState) (t0 t1 t2 t3 t4 : String) : Option CState :=
  match pyInt t0, pyInt t1, pyInt t2, pyInt t3, pyFloat t4 with
  | some s0, some xv, some yv, some tv, some vv =>
    let site := s0 - 1
    match setAt c.x site xv, setAt c.y site yv, setAt c.time site tv, setAt c.val site vv with
    | some x2, some y2, some t2l, some v2 =>
      some { c with x := x2, y := y2, time := t2l, val := v2 }
    | _, _, _, _ => none
  | _, _, _, _, _ => none

/-- Constructor handling of a State-2 line: `self.beghr[day][site] = ...`.
The `day` bound reflects the row lookup `self.beghr[day]`; the write itself
lands in the one shared row. -/
def ctorWindow (n_day : Int) (c : CState) (t0 t1 t2 t3 : String) : Option CState :=
  match pyInt t0, pyInt t1, pyInt t2, pyInt t3 with
  | some s0, some d0, some bv, some ev =>
    let site := s0 - 1
    let day := d0 - 1
    if 0 ≤ day ∧ day < n_day then
      match setAt c.begRow site bv, setAt c.endRow site ev with
      | some b2, some e2 => some { c with begRow := b2, endRow := e2 }
      | _, _ => none
    else none
  | _, _, _, _ => none

/-- One line of the constructor's parse loop (same 3-state shape as the
validator, but without any validity checks). -/
def ctorLine (n_day : Int) (c : CState) (line : String) : Option CState :=
  match pySplitWS line with
  | [] => some c
  | t0 :: ts =>
    if c.st = 0 then some { c with st := 1 }
    else if c.st = 1 then
      if isDigitLeading t0 then
        match ts with
        | u1 :: u2 :: u3 :: u4 :: _ => ctorSite c t0 u1 u2 u3 u4
        | _ => none
      else some { c with st := 2 }
    else
      match ts with
      | u1 :: u2 :: u3 :: _ => ctorWindow n_day c t0 u1 u2 u3
      | _ => none

/-- The constructor's loop over all lines. -/
def ctorScan (n_day : Int) (c : CState) : List String → Option CState
  | [] => some c
  | line :: rest =>
    match ctorLine n_day c line with
    | none => none
    | some c2 => ctorScan n_day c2 rest

/-- Initial constructor state: `[0] * n_site` for every per-site list
(`[0.] * n_site` for `val`), one shared `[0] * n_site` window row. -/
def initCState (n_site : Int) : CState :=
  ⟨0, List.replicate n_site.toNat 0, List.replicate n_site.toNat 0,
   List.replicate n_site.toNat 0, List.replicate n_site.toNat 0,
   List.replicate n_site.toNat 0, List.replicate n_site.toNat 0⟩

/-- `OptimalTour(n_site, n_day, stdin)`. -/
def OptimalTour.ofStdin (n_site n_day : Int) (stdin : String) : Option OptimalTour :=
  match ctorScan n_day (initCState n_site) (pyLines stdin) with
  | some c => some ⟨stdin, n_site, n_day, c.x, c.y, c.val, c.time, c.begRow, c.endRow⟩
  | none => none

/-- `parse_input` followed by the constructor call it performs on success. -/
def buildProblem (stdin : String) : Option OptimalTour :=
  match parse_input stdin with
  | .ok st => OptimalTour.ofStdin st.n_site st.n_day stdin
  | .error _ => none

/-! ## Scorer (`OptimalTour.parse_output`) -/

/-- Rejection reasons of `parse_output`, one constructor per `raise` site;
`badSiteToken` models the `ValueError` of `int(site_s)` on a non-integer
token. -/
inductive SErr where
  | lineCount (expected : Int) (actual : Nat)
  | badSiteToken
  | siteRange (ssite : Int)
  | alreadyVisited (ssite : Int)
  | insufficientTime (ssite : Int)
  deriving DecidableEq

/-- Scoring state shared across days: the problem object the method runs on
(threaded explicitly to record that the method never mutates it), the
running total and the global visited set of zero-based site indices. -/
structure ScoreSt where
  prob : OptimalTour
  totVal : Rat
  visited : Finset Int
  deriving DecidableEq

/-- Per-day locals of the scorer: clock `now` (minutes), position, and the
`is_first_site_of_day` flag. -/
structure DaySt where
  s : ScoreSt
  now : Int
  x : Int
  y : Int
  isFirst : Bool
  deriving DecidableEq

/-- The scorer's travel step for the site at index `idx`:
`now += abs(x - self.x[site]) + abs(y - self.y[site])` unless this is the
first site of the day. -/
def travelOf (d : DaySt) (idx : Nat) : Int :=
  if d.isFirst then 0
  else |d.x - d.s.prob.x.getD idx 0| + |d.y - d.s.prob.y.getD idx 0|

/-- The scorer's clock after travel and waiting:
`now = max(now, self.beghr[day][site] * 60)`. -/
def arriveOf (day : Nat) (d : DaySt) (idx : Nat) : Int :=
  max (d.now + travelOf d idx) (d.s.prob.beghr day idx * 60)

/-- Day state after a successful visit of 1-based site id `ssite`:
value added, site marked visited, position moved, clock at `arriveOf`,
`is_first_site_of_day` now false. -/
def visitOkSt (day : Nat) (d : DaySt) (ssite : Int) : DaySt :=
  ⟨⟨d.s.prob, ratAdd d.s.totVal (d.s.prob.val.getD (ssite - 1).toNat 0),
    insert (ssite - 1) d.s.visited⟩,
   arriveOf day d (ssite - 1).toNat,
   d.s.prob.x.getD (ssite - 1).toNat 0, d.s.prob.y.getD (ssite - 1).toNat 0, false⟩

/-- One site token of a day line: range check, global uniqueness check,
travel, waiting to the opening hour, deadline check, value accumulation. -/
def visitSite (day : Nat) (d : DaySt) (tok : String) : Except SErr DaySt :=
  match pyInt tok with
  | none => .error .badSiteToken
  | some ssite =>
    if ¬ (0 ≤ ssite - 1 ∧ ssite - 1 < d.s.prob.n_site) then .error (.siteRange ssite)
    else if ssite - 1 ∈ d.s.visited then .error (.alreadyVisited ssite)
    else if arriveOf day d (ssite - 1).toNat + d.s.prob.time.getD (ssite - 1).toNat 0 >
        d.s.prob.endhr day (ssite - 1).toNat * 60 then
      .error (.insufficientTime ssite)
    else
      .ok (visitOkSt day d ssite)

/-- The inner `for site_s in ln` loop of one day. -/
def runToks (day : Nat) (d : DaySt) : List String → Except SErr DaySt
  | [] => .ok d
  | tok :: rest =>
    match visitSite day d tok with
    | .error e => .error e
    | .ok d2 => runToks day d2 rest

/-- One day of the scorer: locals reset to `now = 0`, `x = y = 0`,
`is_first_site_of_day = True`, then the token loop. -/
def runDay (day : Nat) (s : ScoreSt) (line : String) : Except SErr ScoreSt :=
  match runToks day ⟨s, 0, 0, 0, true⟩ (pySplitWS line) with
  | .error e => .error e
  | .ok d => .ok d.s

/-- The `for day, line in enumerate(lines)` loop. -/
def runDays (day : Nat) (s : ScoreSt) : List String → Except SErr ScoreSt
  | [] => .ok s
  | line :: rest =>
    match runDay day s line with
    | .error e => .error e
    | .ok s2 => runDays (day + 1) s2 rest

/-- `parse_output` as a state-passing method call: result plus the problem
object after the call (the method body assigns no attribute of `self`, so
the threaded object is whatever the day loop carries along). -/
def parse_output_st (p : OptimalTour) (out : String) : Except SErr Rat × OptimalTour :=
  let lines := rtrimEmpty (pyLines out)
  if (lines.length : Int) ≠ p.n_day then (.error (.lineCount p.n_day lines.length), p)
  else
    match runDays 0 ⟨p, 0, ∅⟩ lines with
    | .error e => (.error e, p)
    | .ok s => (.ok s.totVal, s.prob)

/-- The scoring result of `parse_output`. -/
def parse_output (p : OptimalTour) (out : String) : Except SErr Rat :=
  (parse_output_st p out).1

/-- All site tokens of a candidate output, in processing order (lines after
trailing-blank trimming, flattened). -/
def outputSiteTokens (out : String) : List String :=
  ((rtrimEmpty (pyLines out)).map pySplitWS).flatten

/-- Boolean success test for `Except`. -/
def exceptOk {ε α : Type} : Except ε α → Bool
  | .ok _ => true
  | .error _ => false

/-! ## Concrete inputs used by counterexamples and witnesses -/

/-- A 1-site, 1-day problem text the validator accepts: window 0..23,
desired time 4, value 5.0. -/
def exText : String :=
  "site avenue street desiredtime value\n1 2 3 4 5.0\nsite day beginhour endhour\n1 1 0 23"

/-- A 1-site, 2-day problem text: the day-1 window is 0..23 and the day-2
window (parsed last) is 12..12. -/
def aliasText : String :=
  "site avenue street desiredtime value\n1 0 0 60 1.0\nsite day beginhour endhour\n1 1 0 23\n1 2 12 12"

/-- A State-1 input with a single site record whose id is 300: the distinct
site count never exceeds 1. -/
def bigSiteText : String :=
  "site avenue street desiredtime value\n300 1 1 10 1.0"

/-- A text whose per-line checks and count check all pass but whose window
records are for days 2 and 0, so (site 1, day 1) is missing. -/
def gapDayText : String :=
  "site avenue street desiredtime value\n1 0 0 60 1.0\nsite day beginhour endhour\n1 2 5 6\n1 0 5 6"

/-- A State-1 input whose second line has site id 0. -/
def badSiteText : String :=
  "site avenue street desiredtime value\n0 1 1 10 1.0"

/-- The problem the constructor builds from `exText`. -/
def probW : OptimalTour := ⟨exText, 1, 1, [2], [3], [5], [4], [0], [23]⟩

/-- The validator state after scanning `exText`. -/
def stW : VState := ⟨2, 1, 1, {1}, {(2, 3)}, {(1, 1)}⟩

/-! ## Proof-side invariants -/

/-- Scan invariant of `parse_input`: the running maxima are nonnegative,
every recorded site id lies in `[1, n_site]`, every recorded (site, day)
pair has its site in `[1, n_site]` and its day at most `n_day` (note: no
lower bound on the day — State 2 never checks `1 ≤ day`), and from State 2
on the distinct-site count equals `n_site`. -/
def VInv (v : VState) : Prop :=
  0 ≤ v.n_site ∧ 0 ≤ v.n_day ∧
  (∀ s ∈ v.sites, 1 ≤ s ∧ s ≤ v.n_site) ∧
  (∀ pr ∈ v.sitedays, 1 ≤ pr.1 ∧ pr.1 ≤ v.n_site ∧ pr.2 ≤ v.n_day) ∧
  (v.state = 2 → (v.sites.card : Int) = v.n_site)

/-- Relation between the validator scan state and the constructor scan
state, for a final site bound `N`: the constructor is in the same parse
state and all its per-site lists have length `N.toNat`. -/
def CRel (N : Int) (v : VState) (c : CState) : Prop :=
  c.st = v.state ∧
  c.x.length = N.toNat ∧ c.y.length = N.toNat ∧ c.val.length = N.toNat ∧
  c.time.length = N.toNat ∧ c.begRow.length = N.toNat ∧ c.endRow.length = N.toNat

/-! ## Lemmas about the scorer -/

/-- `ratAdd` is ordinary rational addition. -/
theorem ratAdd_eq_add (a b : Rat) : ratAdd a b = a + b :=
  (Rat.add_def' a b).symm

/-- Success inversion for a single site token. -/
theorem visitSite_ok_iff {day : Nat} {d : DaySt} {tok : String} {d' : DaySt} :
    visitSite day d tok = .ok d' ↔
      ∃ ssite, pyInt tok = some ssite ∧
        (0 ≤ ssite - 1 ∧ ssite - 1 < d.s.prob.n_site) ∧
        ssite - 1 ∉ d.s.visited ∧
        arriveOf day d (ssite - 1).toNat + d.s.prob.time.getD (ssite - 1).toNat 0 ≤
          d.s.prob.endhr day (ssite - 1).toNat * 60 ∧
        d' = visitOkSt day d ssite := by
  cases hp : pyInt tok with
  | none =>
    simp only [visitSite, hp]
    simp
  | some ssite =>
    simp only [visitSite, hp]
    constructor
    · intro h
      split_ifs at h with h1 h2 h3
      all_goals
        first
          | exact Except.noConfusion h
          | (injection h with h4; exact ⟨ssite, rfl, h1, h2, not_lt.mp h3, h4.symm⟩)
    · rintro ⟨ssite2, hp2, hrange, hvis, htime, rfl⟩
      injection hp2 with he
      subst he
      rw [if_neg (not_not_intro hrange), if_neg hvis, if_neg (not_lt.mpr htime)]

/-- Characterization of a successful inner token loop: the tokens parse to a
list of 1-based ids whose zero-based indices are fresh and mutually distinct,
the visited set grows by exactly those indices, the problem object is
untouched, and the total grows by the sum of the corresponding values. -/
theorem runToks_ok {day : Nat} : ∀ {toks : List String} {d d' : DaySt},
    runToks day d toks = .ok d' →
    ∃ ids : List Int,
      toks.map pyInt = ids.map some ∧
      d'.s.prob = d.s.prob ∧
      d'.s.visited = d.s.visited ∪ (ids.map (fun i => i - 1)).toFinset ∧
      (ids.map (fun i => i - 1)).Nodup ∧
      (∀ i ∈ ids, i - 1 ∉ d.s.visited) ∧
      d'.s.totVal = d.s.totVal + (ids.map (fun i => d.s.prob.val.getD (i - 1).toNat 0)).sum := by
  intro toks
  induction toks with
  | nil =>
    intro d d' h
    injection h with h2
    subst h2
    exact ⟨[], by simp⟩
  | cons tok rest ih =>
    intro d d' h
    unfold runToks at h
    cases hv : visitSite day d tok with
    | error e => rw [hv] at h; exact absurd h (by simp)
    | ok d2 =>
      rw [hv] at h
      obtain ⟨ssite, hp, hrange, hfresh, htime, hd2⟩ := visitSite_ok_iff.mp hv
      obtain ⟨ids, hmap, hprob, hvisited, hnodup, hfresh2, htot⟩ := ih h
      subst hd2
      refine ⟨ssite :: ids, ?_, ?_, ?_, ?_, ?_, ?_⟩
      · simp [hmap, hp]
      · rw [hprob]; rfl
      · rw [hvisited]
        show _ = d.s.visited ∪ ((ssite - 1) :: ids.map (fun i => i - 1)).toFinset
        ext a
        simp only [visitOkSt, Finset.mem_union, Finset.mem_insert, List.toFinset_cons,
          List.mem_toFinset]
        tauto
      · refine List.nodup_cons.mpr ⟨?_, hnodup⟩
        intro hmem
        obtain ⟨i, hi, hie⟩ := List.mem_map.mp hmem
        have := hfresh2 i hi
        rw [hie] at this
        exact this (by simp [visitOkSt])
      · intro i hi
        rcases List.mem_cons.mp hi with h1 | h1
        · subst h1; exact hfresh
        · intro hmem
          exact hfresh2 i h1 (by simp [visitOkSt, hmem])
      · rw [htot]
        simp only [visitOkSt, ratAdd_eq_add, List.map_cons, List.sum_cons]
        ring

/-- Day lines whose token lists are empty leave the scoring state unchanged. -/
theorem runDays_empty : ∀ (lines : List String) (day : Nat) (s : ScoreSt),
    (∀ l ∈ lines, pySplitWS l = []) → runDays day s lines = .ok s := by
  intro lines
  induction lines with
  | nil => intro day s h; rfl
  | cons line rest ih =>
    intro day s h
    have h1 : pySplitWS line = [] := h line (by simp)
    have h2 : runDay day s line = .ok s := by
      unfold runDay
      rw [h1]
      rfl
    unfold runDays
    rw [h2]
    exact ih _ _ (fun l hl => h l (by simp [hl]))

/-- `runDay` lifted version of `runToks_ok`: the per-day locals start from
`now = 0`, `x = y = 0`, first-site flag set. -/
theorem runDay_ok {day : Nat} {s s' : ScoreSt} {line : String}
    (h : runDay day s line = .ok s') :
    ∃ ids : List Int,
      (pySplitWS line).map pyInt = ids.map some ∧
      s'.prob = s.prob ∧
      s'.visited = s.visited ∪ (ids.map (fun i => i - 1)).toFinset ∧
      (ids.map (fun i => i - 1)).Nodup ∧
      (∀ i ∈ ids, i - 1 ∉ s.visited) ∧
      s'.totVal = s.totVal + (ids.map (fun i => s.prob.val.getD (i - 1).toNat 0)).sum := by
  unfold runDay at h
  cases hr : runToks day ⟨s, 0, 0, 0, true⟩ (pySplitWS line) with
  | error e => rw [hr] at h; exact Except.noConfusion h
  | ok dEnd =>
    rw [hr] at h
    injection h with h2
    obtain ⟨ids, hmap, hprob, hvis, hnodup, hfresh, htot⟩ := runToks_ok hr
    subst h2
    exact ⟨ids, hmap, hprob, hvis, hnodup, hfresh, htot⟩

/-- Characterization of a successful day loop, accumulated over all days. -/
theorem runDays_ok : ∀ {lines : List String} {day : Nat} {s s' : ScoreSt},
    runDays day s lines = .ok s' →
    ∃ ids : List Int,
      (lines.map pySplitWS).flatten.map pyInt = ids.map some ∧
      s'.prob = s.prob ∧
      s'.visited = s.visited ∪ (ids.map (fun i => i - 1)).toFinset ∧
      (ids.map (fun i => i - 1)).Nodup ∧
      (∀ i ∈ ids, i - 1 ∉ s.visited) ∧
      s'.totVal = s.totVal + (ids.map (fun i => s.prob.val.getD (i - 1).toNat 0)).sum := by
  intro lines
  induction lines with
  | nil =>
    intro day s s' h
    injection h with h2
    subst h2
    exact ⟨[], by simp⟩
  | cons line rest ih =>
    intro day s s' h
    unfold runDays at h
    cases hr : runDay day s line with
    | error e => rw [hr] at h; exact Except.noConfusion h
    | ok s2 =>
      rw [hr] at h
      obtain ⟨ids1, hmap1, hprob1, hvis1, hnodup1, hfresh1, htot1⟩ := runDay_ok hr
      obtain ⟨ids2, hmap2, hprob2, hvis2, hnodup2, hfresh2, htot2⟩ := ih h
      refine ⟨ids1 ++ ids2, ?_, ?_, ?_, ?_, ?_, ?_⟩
      · simp [hmap1, hmap2]
      · rw [hprob2, hprob1]
      · rw [hvis2, hvis1]
        simp [Finset.union_assoc]
      · rw [List.map_append, List.nodup_append]
        refine ⟨hnodup1, hnodup2, ?_⟩
        intro a ha1 ha2
        obtain ⟨i2, hi2, hie⟩ := List.mem_map.mp ha2
        have hni : i2 - 1 ∉ s2.visited := hfresh2 i2 hi2
        rw [hvis1] at hni
        rw [← hie] at ha1
        exact hni (Finset.mem_union_right _ (List.mem_toFinset.mpr ha1))
      · intro i hi
        rcases List.mem_append.mp hi with h1 | h1
        · exact hfresh1 i h1
        · intro hmem
          have hni : i - 1 ∉ s2.visited := hfresh2 i h1
          rw [hvis1] at hni
          exact hni (Finset.mem_union_left _ hmem)
      · rw [htot2, hprob1, htot1]
        simp [add_assoc]

/-- A successful scoring run determines the parsed id list, its distinctness,
and the total as the sum of the corresponding values. -/
theorem parse_output_ok_ids {p : OptimalTour} {out : String} {t : Rat}
    (hok : parse_output p out = .ok t) :
    ∃ ids : List Int,
      (outputSiteTokens out).map pyInt = ids.map some ∧
      (ids.map (fun i => i - 1)).Nodup ∧
      t = (ids.map (fun i => p.val.getD (i - 1).toNat 0)).sum := by
  unfold parse_output parse_output_st at hok
  simp only at hok
  split at hok
  · exact Except.noConfusion hok
  · rename_i hlen
    cases hr : runDays 0 ⟨p, 0, ∅⟩ (rtrimEmpty (pyLines out)) with
    | error e => rw [hr] at hok; exact Except.noConfusion hok
    | ok s2 =>
      rw [hr] at hok
      injection hok with h2
      obtain ⟨ids, hmap, hprob, hvis, hnodup, hfresh, htot⟩ := runDays_ok hr
      refine ⟨ids, hmap, hnodup, ?_⟩
      rw [← h2, htot]
      simp [outputSiteTokens]

/-- A token-wise `map` to `some` values collapses `filterMap` to those values. -/
theorem filterMap_of_map_some {α β : Type} {f : α → Option β} : ∀ {l : List α} {ids : List β},
    l.map f = ids.map some → l.filterMap f = ids := by
  intro l
  induction l with
  | nil =>
    intro ids h
    cases ids with
    | nil => rfl
    | cons b bs => simp at h
  | cons a l2 ih =>
    intro ids h
    cases ids with
    | nil => simp at h
    | cons b bs =>
      rw [List.map_cons, List.map_cons] at h
      injection h with h1 h2
      rw [List.filterMap_cons, h1, ih h2]

/-! ## Claims about the scorer -/

/-- C2 (amended): a candidate output whose trimmed line count matches `n_day`
and whose lines all have zero site tokens is accepted with total value 0;
each such day contributes nothing.  (The original claim fails for outputs
whose empty day lines are trailing empty strings, which the trimming
removes before the count check: see the counterexample.) -/
theorem c2_empty_day_lines (p : OptimalTour) (out : String)
    (hn : ((rtrimEmpty (pyLines out)).length : Int) = p.n_day)
    (hl : ∀ l ∈ rtrimEmpty (pyLines out), pySplitWS l = []) :
    parse_output p out = .ok 0 := by
  unfold parse_output parse_output_st
  simp only
  rw [if_neg (not_ne_iff.mpr hn), runDays_empty _ _ _ hl]

/-- C2 witness: a single whitespace-only (hence zero-token but untrimmed)
day line on a 1-day problem scores Feasible with value 0. -/
theorem c2_empty_day_lines_witness : parse_output probW " " = .ok 0 :=
  c2_empty_day_lines probW " " (by decide) (by decide)

/-- C2 counterexample: on the validator-accepted 1-day problem `exText`, the
output consisting of exactly one empty day line (the empty string) is NOT
accepted with value 0 as the claim states: the trailing-blank trimming
removes it and the scorer rejects with a line-count error. -/
theorem c2_all_empty_rejected :
    (buildProblem exText).map (fun p => parse_output p "") =
      some (.error (.lineCount 1 0)) := by decide

/-- C3: the scorer's clock evolution.  Per day the locals restart at
`now = 0` (first conjunct); for the first site of a day no travel time is
added, for later sites the Manhattan distance is added (second and third
conjuncts); the clock is raised to `beghr * 60`; the visit succeeds exactly
when `now + desired_time ≤ endhr * 60` (finishing exactly at closing is
accepted) and is rejected as insufficient time exactly when it overruns; on
success the clock sits at the arrival value and the position moves to the
site's coordinates. -/
theorem c3_clock_evolution (day : Nat) (d : DaySt) (tok : String) (ssite : Int)
    (hp : pyInt tok = some ssite)
    (hr : 0 ≤ ssite - 1 ∧ ssite - 1 < d.s.prob.n_site)
    (hv : ssite - 1 ∉ d.s.visited) :
    (∀ (s : ScoreSt) (line : String), runDay day s line =
      match runToks day ⟨s, 0, 0, 0, true⟩ (pySplitWS line) with
      | .error e => .error e
      | .ok d2 => .ok d2.s) ∧
    (d.isFirst = true →
      arriveOf day d (ssite - 1).toNat =
        max d.now (d.s.prob.beghr day (ssite - 1).toNat * 60)) ∧
    (d.isFirst = false →
      arriveOf day d (ssite - 1).toNat =
        max (d.now + (|d.x - d.s.prob.x.getD (ssite - 1).toNat 0| +
            |d.y - d.s.prob.y.getD (ssite - 1).toNat 0|))
          (d.s.prob.beghr day (ssite - 1).toNat * 60)) ∧
    (visitSite day d tok = .ok (visitOkSt day d ssite) ↔
      arriveOf day d (ssite - 1).toNat + d.s.prob.time.getD (ssite - 1).toNat 0 ≤
        d.s.prob.endhr day (ssite - 1).toNat * 60) ∧
    (visitSite day d tok = .error (.insufficientTime ssite) ↔
      d.s.prob.endhr day (ssite - 1).toNat * 60 <
        arriveOf day d (ssite - 1).toNat + d.s.prob.time.getD (ssite - 1).toNat 0) ∧
    (visitOkSt day d ssite).now = arriveOf day d (ssite - 1).toNat ∧
    (visitOkSt day d ssite).x = d.s.prob.x.getD (ssite - 1).toNat 0 ∧
    (visitOkSt day d ssite).y = d.s.prob.y.getD (ssite - 1).toNat 0 := by
  refine ⟨fun s line => rfl, ?_, ?_, ?_, ?_, rfl, rfl, rfl⟩
  · intro hfirst
    unfold arriveOf travelOf
    rw [hfirst]
    simp
  · intro hfirst
    unfold arriveOf travelOf
    rw [hfirst]
    simp
  · constructor
    · intro h
      obtain ⟨ssite2, hp2, _, _, htime, heq⟩ := visitSite_ok_iff.mp h
      rw [hp] at hp2
      injection hp2 with he
      subst he
      exact htime
    · intro htime
      exact visitSite_ok_iff.mpr ⟨ssite, hp, hr, hv, htime, rfl⟩
  · constructor
    · intro h
      by_contra hle
      have hok : visitSite day d tok = .ok (visitOkSt day d ssite) :=
        visitSite_ok_iff.mpr ⟨ssite, hp, hr, hv, not_lt.mp hle, rfl⟩
      rw [h] at hok
      exact Except.noConfusion hok
    · intro hlt
      simp only [visitSite, hp]
      rw [if_neg (not_not_intro hr), if_neg hv, if_pos hlt]

/-- C3 witness: on the concrete problem `probW`, the first (and only) site
is accepted and the step equation produced by the theorem evaluates. -/
theorem c3_clock_evolution_witness :
    visitSite 0 ⟨⟨probW, 0, ∅⟩, 0, 0, 0, true⟩ "1" =
      .ok (visitOkSt 0 ⟨⟨probW, 0, ∅⟩, 0, 0, 0, true⟩ 1) :=
  (c3_clock_evolution 0 ⟨⟨probW, 0, ∅⟩, 0, 0, 0, true⟩ "1" 1 (by decide) (by decide)
    (by decide)).2.2.2.1.mpr (by decide)

/-- Values drawn from a list of positive rationals via `getD _ 0` are
nonnegative. -/
theorem val_getD_nonneg (l : List Rat) (hpos : ∀ v ∈ l, 0 < v) (n : Nat) :
    0 ≤ l.getD n 0 := by
  rcases lt_or_le n l.length with h | h
  · rw [List.getD_eq_getElem l 0 h]
    exact le_of_lt (hpos _ (List.getElem_mem h))
  · rw [List.getD_eq_default l 0 h]

/-- C4: on a validated problem (all site values positive), an accepted
output determines a list of parsed 1-based site ids; their zero-based
indices are pairwise distinct, and the returned total is exactly the sum of
`value[site]` over those distinct sites, hence nonnegative, and zero when no
site is visited. -/
theorem c4_total_is_sum_of_distinct (p : OptimalTour) (out : String) (t : Rat)
    (hpos : ∀ v ∈ p.val, 0 < v)
    (hok : parse_output p out = .ok t) :
    ∃ ids : List Int,
      (outputSiteTokens out).map pyInt = ids.map some ∧
      (ids.map (fun i => i - 1)).Nodup ∧
      t = (ids.map (fun i => p.val.getD (i - 1).toNat 0)).sum ∧
      0 ≤ t ∧ (ids = [] → t = 0) := by
  obtain ⟨ids, hmap, hnodup, htot⟩ := parse_output_ok_ids hok
  refine ⟨ids, hmap, hnodup, htot, ?_, ?_⟩
  · rw [htot]
    refine List.sum_nonneg ?_
    intro x hx
    obtain ⟨i, hi, hie⟩ := List.mem_map.mp hx
    rw [← hie]
    exact val_getD_nonneg p.val hpos _
  · intro hnil
    rw [htot, hnil]
    rfl

/-- C4 witness: scoring `probW` on output `1` yields exactly the value sum 5. -/
theorem c4_witness :
    ∃ ids : List Int,
      (outputSiteTokens "1").map pyInt = ids.map some ∧
      (ids.map (fun i => i - 1)).Nodup ∧
      (5 : Rat) = (ids.map (fun i => probW.val.getD (i - 1).toNat 0)).sum ∧
      0 ≤ (5 : Rat) ∧ (ids = [] → (5 : Rat) = 0) :=
  c4_total_is_sum_of_distinct probW "1" 5 (by decide) (by decide)

/-- C5: whenever some site index appears in two different (day, position)
slots of the candidate output — same day or different days — the scorer
rejects the tour (the global visited set makes any second occurrence, or an
earlier failure, fatal; the result is never a success). -/
theorem c5_duplicate_rejected (p : OptimalTour) (out : String)
    (hdup : ¬ ((outputSiteTokens out).filterMap pyInt).Nodup) :
    ∃ e, parse_output p out = .error e := by
  cases hres : parse_output p out with
  | error e => exact ⟨e, rfl⟩
  | ok t =>
    exfalso
    obtain ⟨ids, hmap, hnodup, -⟩ := parse_output_ok_ids hres
    rw [filterMap_of_map_some hmap] at hdup
    exact hdup (List.Nodup.of_map _ hnodup)

/-- C5 witness: output `1 1` visits site 1 twice and is rejected. -/
theorem c5_duplicate_rejected_witness : ∃ e, parse_output probW "1 1" = .error e :=
  c5_duplicate_rejected probW "1 1" (by decide)

/-- C9: scoring never mutates the problem object — the state-passing form
returns the problem unchanged — and a second call on the returned object
with the same output text yields the identical result. -/
theorem c9_immutable_idempotent (p : OptimalTour) (out : String) :
    (parse_output_st p out).2 = p ∧
    parse_output_st (parse_output_st p out).2 out = parse_output_st p out := by
  have hf : (parse_output_st p out).2 = p := by
    unfold parse_output_st
    simp only
    split
    · rfl
    · cases hr : runDays 0 ⟨p, 0, ∅⟩ (rtrimEmpty (pyLines out)) with
      | error e => rfl
      | ok s2 =>
        obtain ⟨-, -, hprob, -⟩ := runDays_ok hr
        exact hprob
  exact ⟨hf, by rw [hf]⟩

/-! ## Lemmas about the validator -/

/-- Success inversion for State 0. -/
theorem state0Line_ok {st : VState} {lnum : Nat} {ln : List String} {st' : VState}
    (h : state0Line st lnum ln = .ok st') :
    ln = ["site", "avenue", "street", "desiredtime", "value"] ∧ st' = { st with state := 1 } := by
  unfold state0Line at h
  split_ifs at h with h1
  · injection h with h2
    exact ⟨h1, h2.symm⟩

/-- Success inversion for a digit-leading State-1 line. -/
theorem state1Digit_ok {st : VState} {lnum : Nat} {ln : List String} {st' : VState}
    (h : state1Digit st lnum ln = .ok st') :
    ∃ t0 t1 t2 t3 t4 site avenue street desired_time value,
      ln = [t0, t1, t2, t3, t4] ∧
      pyInt t0 = some site ∧ pyInt t1 = some avenue ∧ pyInt t2 = some street ∧
      pyInt t3 = some desired_time ∧ pyFloat t4 = some value ∧
      max st.n_site site ≤ 200 ∧ 1 ≤ site ∧ 1 ≤ desired_time ∧ desired_time ≤ 1440 ∧
      0 < value ∧ site ∉ st.sites ∧ (avenue, street) ∉ st.locations ∧
      st' = { st with n_site := max st.n_site site, sites := insert site st.sites,
                      locations := insert (avenue, street) st.locations } := by
  unfold state1Digit at h
  split at h
  case h_2 => exact Except.noConfusion h
  case h_1 t0 t1 t2 t3 t4 =>
    split at h
    case h_2 => exact Except.noConfusion h
    case h_1 site avenue street desired_time value hp0 hp1 hp2 hp3 hp4 =>
      split_ifs at h with hc1 hc2 hc3 hc4 hc5 hc6
      all_goals
        first
          | exact Except.noConfusion h
          | (injection h with h2;
             exact ⟨t0, t1, t2, t3, t4, site, avenue, street, desired_time, value,
               rfl, hp0, hp1, hp2, hp3, hp4, not_lt.mp hc1, hc2,
               hc3.1, hc3.2, hc4, hc5, hc6, h2.symm⟩)

/-- Success inversion for the State-1 header transition. -/
theorem state1Other_ok {st : VState} {lnum : Nat} {ln : List String} {st' : VState}
    (h : state1Other st lnum ln = .ok st') :
    ln = ["site", "day", "beginhour", "endhour"] ∧
    (st.sites.card : Int) = st.n_site ∧ st' = { st with state := 2 } := by
  unfold state1Other at h
  split_ifs at h with h1 h2
  · injection h with h3
    exact ⟨h1, h2, h3.symm⟩

/-- Success inversion for a State-2 line. -/
theorem state2Line_ok {st : VState} {lnum : Nat} {ln : List String} {st' : VState}
    (h : state2Line st lnum ln = .ok st') :
    ∃ t0 t1 t2 t3 site day begin_hour end_hour,
      ln = [t0, t1, t2, t3] ∧
      pyInt t0 = some site ∧ pyInt t1 = some day ∧ pyInt t2 = some begin_hour ∧
      pyInt t3 = some end_hour ∧
      max st.n_day day ≤ 10 ∧ 1 ≤ site ∧ site ≤ st.n_site ∧
      0 ≤ begin_hour ∧ begin_hour ≤ end_hour ∧ end_hour ≤ 23 ∧
      (site, day) ∉ st.sitedays ∧
      st' = { st with n_day := max st.n_day day,
                      sitedays := insert (site, day) st.sitedays } := by
  unfold state2Line at h
  split at h
  case h_2 => exact Except.noConfusion h
  case h_1 t0 t1 t2 t3 =>
    split at h
    case h_2 => exact Except.noConfusion h
    case h_1 site day begin_hour end_hour hp0 hp1 hp2 hp3 =>
      split_ifs at h with hc1 hc2 hc3 hc4
      all_goals
        first
          | exact Except.noConfusion h
          | (injection h with h2;
             exact ⟨t0, t1, t2, t3, site, day, begin_hour, end_hour,
               rfl, hp0, hp1, hp2, hp3, not_lt.mp hc1, hc2.1, hc2.2,
               hc3.1, hc3.2.1, hc3.2.2, hc4, h2.symm⟩)

/-- One validator step preserves the scan invariant. -/
theorem stepLine_inv {st : VState} {lnum : Nat} {line : String} {st' : VState}
    (h : stepLine st lnum line = .ok st') (hi : VInv st) : VInv st' := by
  obtain ⟨hns, hnd, hsites, hsd, hcard⟩ := hi
  unfold stepLine at h
  split at h
  · injection h with h2; subst h2; exact ⟨hns, hnd, hsites, hsd, hcard⟩
  · split_ifs at h with hs0 hs1 hdig
    · obtain ⟨-, rfl⟩ := state0Line_ok h
      exact ⟨hns, hnd, hsites, hsd, by intro hx; exact absurd hx (by simp)⟩
    · obtain ⟨t0, t1, t2, t3, t4, site, avenue, street, dt, v, -, -, -, -, -, -,
        hsz, hs1le, -, -, -, hdup, -, rfl⟩ := state1Digit_ok h
      refine ⟨le_trans hns (le_max_left _ _), hnd, ?_, ?_, ?_⟩
      · intro s hs
        rcases Finset.mem_insert.mp hs with rfl | hs2
        · exact ⟨hs1le, le_max_right _ _⟩
        · obtain ⟨ha, hb⟩ := hsites s hs2
          exact ⟨ha, le_trans hb (le_max_left _ _)⟩
      · intro pr hpr
        obtain ⟨ha, hb, hc⟩ := hsd pr hpr
        exact ⟨ha, le_trans hb (le_max_left _ _), hc⟩
      · intro hx
        exact absurd hx (by simp [hs1])
    · obtain ⟨-, hcount, rfl⟩ := state1Other_ok h
      exact ⟨hns, hnd, hsites, hsd, fun _ => hcount⟩
    · obtain ⟨t0, t1, t2, t3, site, day, bh, eh, -, -, -, -, -,
        hd10, hsle1, hsle2, -, -, -, hdup, rfl⟩ := state2Line_ok h
      refine ⟨hns, le_trans hnd (le_max_left _ _), hsites, ?_, hcard⟩
      intro pr hpr
      rcases Finset.mem_insert.mp hpr with rfl | hpr2
      · exact ⟨hsle1, hsle2, le_max_right _ _⟩
      · obtain ⟨ha, hb, hc⟩ := hsd pr hpr2
        exact ⟨ha, hb, le_trans hc (le_max_left _ _)⟩

/-- One validator step only grows the running maxima and the recorded pair
set, and once in State 2 it stays there without touching `n_site` or the
site set. -/
theorem stepLine_mono {st : VState} {lnum : Nat} {line : String} {st' : VState}
    (h : stepLine st lnum line = .ok st') :
    st.n_site ≤ st'.n_site ∧ st.n_day ≤ st'.n_day ∧ st.sitedays ⊆ st'.sitedays ∧
      (st.state = 2 → st'.state = 2 ∧ st'.n_site = st.n_site ∧ st'.sites = st.sites) := by
  unfold stepLine at h
  split at h
  · injection h with h2; subst h2
    exact ⟨le_refl _, le_refl _, Finset.Subset.refl _, fun hx => ⟨hx, rfl, rfl⟩⟩
  · split_ifs at h with hs0 hs1 hdig
    · obtain ⟨-, rfl⟩ := state0Line_ok h
      exact ⟨le_refl _, le_refl _, Finset.Subset.refl _, fun hx => absurd hx (by simp [hs0])⟩
    · obtain ⟨t0, t1, t2, t3, t4, site, avenue, street, dt, v, -, -, -, -, -, -,
        -, -, -, -, -, -, -, rfl⟩ := state1Digit_ok h
      exact ⟨le_max_left _ _, le_refl _, Finset.Subset.refl _,
        fun hx => absurd hx (by simp [hs1])⟩
    · obtain ⟨-, -, rfl⟩ := state1Other_ok h
      exact ⟨le_refl _, le_refl _, Finset.Subset.refl _, fun hx => absurd hx (by simp [hs1])⟩
    · obtain ⟨t0, t1, t2, t3, site, day, bh, eh, -, -, -, -, -, -, -, -, -, -, -, -,
        rfl⟩ := state2Line_ok h
      exact ⟨le_refl _, le_max_left _ _, Finset.subset_insert _ _, fun hx => ⟨hx, rfl, rfl⟩⟩

/-- `stepLine_inv` folded over a whole scan. -/
theorem scanValid_inv : ∀ {lines : List String} {st : VState} {lnum : Nat} {st' : VState},
    scanValid st lnum lines = .ok st' → VInv st → VInv st' := by
  intro lines
  induction lines with
  | nil =>
    intro st lnum st' h hi
    injection h with h2
    subst h2
    exact hi
  | cons line rest ih =>
    intro st lnum st' h hi
    unfold scanValid at h
    cases hs : stepLine st lnum line with
    | error e => rw [hs] at h; exact Except.noConfusion h
    | ok st2 =>
      rw [hs] at h
      exact ih h (stepLine_inv hs hi)

/-- `stepLine_mono` folded over a whole scan. -/
theorem scanValid_mono : ∀ {lines : List String} {st : VState} {lnum : Nat} {st' : VState},
    scanValid st lnum lines = .ok st' →
    st.n_site ≤ st'.n_site ∧ st.n_day ≤ st'.n_day ∧ st.sitedays ⊆ st'.sitedays ∧
      (st.state = 2 → st'.state = 2 ∧ st'.n_site = st.n_site ∧ st'.sites = st.sites) := by
  intro lines
  induction lines with
  | nil =>
    intro st lnum st' h
    injection h with h2
    subst h2
    exact ⟨le_refl _, le_refl _, Finset.Subset.refl _, fun hx => ⟨hx, rfl, rfl⟩⟩
  | cons line rest ih =>
    intro st lnum st' h
    unfold scanValid at h
    cases hs : stepLine st lnum line with
    | error e => rw [hs] at h; exact Except.noConfusion h
    | ok st2 =>
      rw [hs] at h
      obtain ⟨ha1, ha2, ha3, ha4⟩ := stepLine_mono hs
      obtain ⟨hb1, hb2, hb3, hb4⟩ := ih h
      refine ⟨le_trans ha1 hb1, le_trans ha2 hb2, Finset.Subset.trans ha3 hb3, ?_⟩
      intro hx
      obtain ⟨hx2, hxn, hxs⟩ := ha4 hx
      obtain ⟨hy2, hyn, hys⟩ := hb4 hx2
      exact ⟨hy2, hyn.trans hxn, hys.trans hxs⟩

/-- The invariant holds at the start of the scan. -/
theorem initVState_inv : VInv initVState := by
  refine ⟨le_refl _, le_refl _, ?_, ?_, ?_⟩
  · intro s hs
    exact absurd hs (by simp [initVState])
  · intro pr hpr
    exact absurd hpr (by simp [initVState])
  · intro hx
    exact absurd hx (by simp [initVState])

/-- Membership in the model of Python `range(1, n + 1)`. -/
theorem mem_intRange1 {n s : Int} : s ∈ intRange1 n ↔ 1 ≤ s ∧ s ≤ (n.toNat : Int) := by
  unfold intRange1
  rw [List.mem_map]
  constructor
  · rintro ⟨i, hi, rfl⟩
    rw [List.mem_range] at hi
    omega
  · rintro ⟨h1, h2⟩
    refine ⟨(s - 1).toNat, ?_, ?_⟩
    · rw [List.mem_range]
      omega
    · omega

/-- In State 2 the recorded site set is exactly `{1, …, n_site}`. -/
theorem sites_complete {st : VState} (hi : VInv st) (hstate : st.state = 2) :
    st.sites = Finset.Icc 1 st.n_site := by
  obtain ⟨hns, -, hsites, -, hcard⟩ := hi
  have hsub : st.sites ⊆ Finset.Icc 1 st.n_site := by
    intro s hs
    exact Finset.mem_Icc.mpr (hsites s hs)
  refine Finset.eq_of_subset_of_card_le hsub ?_
  have hicc : (Finset.Icc (1 : Int) st.n_site).card = st.n_site.toNat := by
    rw [Int.card_Icc]
    omega
  have hc := hcard hstate
  omega

/-- With the count check and all recorded days at least 1, the recorded
pair set is exactly the full (site, day) cross product. -/
theorem sitedays_complete {st : VState} (hi : VInv st)
    (hcount : st.n_day * st.n_site = (st.sitedays.card : Int))
    (hday : ∀ pr ∈ st.sitedays, 1 ≤ pr.2) :
    st.sitedays = Finset.Icc 1 st.n_site ×ˢ Finset.Icc 1 st.n_day := by
  obtain ⟨hns, hnd, -, hsd, -⟩ := hi
  have hsub : st.sitedays ⊆ Finset.Icc 1 st.n_site ×ˢ Finset.Icc 1 st.n_day := by
    intro pr hpr
    obtain ⟨ha, hb, hc⟩ := hsd pr hpr
    exact Finset.mem_product.mpr ⟨Finset.mem_Icc.mpr ⟨ha, hb⟩,
      Finset.mem_Icc.mpr ⟨hday pr hpr, hc⟩⟩
  refine Finset.eq_of_subset_of_card_le hsub ?_
  have e1 : st.n_site + 1 - 1 = st.n_site := by ring
  have e2 : st.n_day + 1 - 1 = st.n_day := by ring
  have hprod : (Finset.Icc (1 : Int) st.n_site ×ˢ Finset.Icc (1 : Int) st.n_day).card =
      st.n_site.toNat * st.n_day.toNat := by
    rw [Finset.card_product, Int.card_Icc, Int.card_Icc, e1, e2]
  have h3 : ((st.n_site.toNat * st.n_day.toNat : Nat) : Int) = (st.sitedays.card : Int) := by
    push_cast
    rw [Int.toNat_of_nonneg hns, Int.toNat_of_nonneg hnd, ← hcount]
    ring
  have h4 : st.n_site.toNat * st.n_day.toNat = st.sitedays.card := by exact_mod_cast h3
  omega

/-! ## Claims about the validator -/

/-- C6 (amended): a digit-leading State-1 record whose five tokens parse is
accepted exactly when the running MAXIMUM SITE ID (not the distinct-site
count) stays at most 200, the site id is at least 1, the desired time lies
in [1, 1440], the value is positive, and neither the site id nor the
location repeats.  (The original claim ties the size check to the distinct
count; the counterexample shows the code checks the maximum id.) -/
theorem c6_size_check (st : VState) (lnum : Nat) (t0 t1 t2 t3 t4 : String)
    (site avenue street desired_time : Int) (value : Rat)
    (h0 : pyInt t0 = some site) (h1 : pyInt t1 = some avenue)
    (h2 : pyInt t2 = some street) (h3 : pyInt t3 = some desired_time)
    (h4 : pyFloat t4 = some value) :
    (∃ st2, state1Digit st lnum [t0, t1, t2, t3, t4] = .ok st2) ↔
      (max st.n_site site ≤ 200 ∧ 1 ≤ site ∧ 1 ≤ desired_time ∧ desired_time ≤ 1440 ∧
        0 < value ∧ site ∉ st.sites ∧ (avenue, street) ∉ st.locations) := by
  constructor
  · rintro ⟨st2, hok⟩
    obtain ⟨u0, u1, u2, u3, u4, site2, avenue2, street2, dt2, v2, hln,
      hp0, hp1, hp2, hp3, hp4, hsz, hs1, hdt1, hdt2, hval, hdup, hloc, -⟩ :=
      state1Digit_ok hok
    injection hln with e0 hln; injection hln with e1 hln; injection hln with e2 hln
    injection hln with e3 hln; injection hln with e4 hln
    subst e0; subst e1; subst e2; subst e3; subst e4
    rw [h0] at hp0; injection hp0 with he; subst he
    rw [h1] at hp1; injection hp1 with he; subst he
    rw [h2] at hp2; injection hp2 with he; subst he
    rw [h3] at hp3; injection hp3 with he; subst he
    rw [h4] at hp4; injection hp4 with he; subst he
    exact ⟨hsz, hs1, hdt1, hdt2, hval, hdup, hloc⟩
  · rintro ⟨hsz, hs1, hdt1, hdt2, hval, hdup, hloc⟩
    refine ⟨⟨st.state, max st.n_site site, st.n_day, insert site st.sites,
      insert (avenue, street) st.locations, st.sitedays⟩, ?_⟩
    simp only [state1Digit, h0, h1, h2, h3, h4]
    rw [if_neg (not_lt.mpr hsz), if_neg (not_not_intro hs1),
      if_neg (not_not_intro ⟨hdt1, hdt2⟩), if_neg (not_not_intro hval),
      if_neg hdup, if_neg hloc]

/-- C6 witness: the record `1 2 3 4 5.0` is accepted from the initial state,
and the acceptance conditions hold. -/
theorem c6_size_check_witness :
    (∃ st2, state1Digit initVState 2 ["1", "2", "3", "4", "5.0"] = .ok st2) ↔
      (max initVState.n_site 1 ≤ 200 ∧ (1 : Int) ≤ 1 ∧ (1 : Int) ≤ 4 ∧ (4 : Int) ≤ 1440 ∧
        (0 : Rat) < 5 ∧ (1 : Int) ∉ initVState.sites ∧
        ((2 : Int), (3 : Int)) ∉ initVState.locations) :=
  c6_size_check initVState 2 "1" "2" "3" "4" "5.0" 1 2 3 4 5
    (by decide) (by decide) (by decide) (by decide) (by decide)

/-- C6 counterexample: a single record with site id 300 — the distinct-site
count never exceeds 1 — is rejected by the size check, because the check is
on the running maximum site id, not on the distinct-site count. -/
theorem c6_maxid_rejected : parse_input bigSiteText = .error (.siteTooLarge 300) := by
  decide

/-- C7 (amended): after a successful scan that reached State 2 and passed
the count check, the post-scan missing-site check can never fire; the
missing-(site, day) check can never fire PROVIDED every recorded day is at
least 1 — a condition State 2 does not enforce, so the check is not
redundant in general (see the counterexample). -/
theorem c7_missing_checks (stdin : String) (st : VState)
    (hscan : scanValid initVState 1 (pyLines stdin) = .ok st)
    (hstate : st.state = 2)
    (hcount : st.n_day * st.n_site = (st.sitedays.card : Int)) :
    (∀ s, missingResult st ≠ some (.missingSite s)) ∧
    ((∀ pr ∈ st.sitedays, 1 ≤ pr.2) → missingResult st = none) := by
  have hi : VInv st := scanValid_inv hscan initVState_inv
  have hns : 0 ≤ st.n_site := hi.1
  have hnd : 0 ≤ st.n_day := hi.2.1
  have hsites : st.sites = Finset.Icc 1 st.n_site := sites_complete hi hstate
  constructor
  · intro s hcontra
    obtain ⟨site, hmem, hf⟩ := List.exists_of_findSome?_eq_some hcontra
    obtain ⟨h1, h2⟩ := mem_intRange1.mp hmem
    have hsin : site ∈ st.sites := by
      rw [hsites, Finset.mem_Icc]
      omega
    rw [if_neg (not_not_intro hsin)] at hf
    obtain ⟨day, -, hg⟩ := List.exists_of_findSome?_eq_some hf
    split_ifs at hg
    injection hg with hg2
    exact VErr.noConfusion hg2
  · intro hday
    have hsd : st.sitedays = Finset.Icc 1 st.n_site ×ˢ Finset.Icc 1 st.n_day :=
      sitedays_complete hi hcount hday
    rw [missingResult, List.findSome?_eq_none_iff]
    intro site hmem
    obtain ⟨h1, h2⟩ := mem_intRange1.mp hmem
    have hsin : site ∈ st.sites := by
      rw [hsites, Finset.mem_Icc]
      omega
    rw [if_neg (not_not_intro hsin), List.findSome?_eq_none_iff]
    intro day hdmem
    obtain ⟨h3, h4⟩ := mem_intRange1.mp hdmem
    have hpin : (site, day) ∈ st.sitedays := by
      rw [hsd, Finset.mem_product, Finset.mem_Icc, Finset.mem_Icc]
      omega
    rw [if_neg (not_not_intro hpin)]

/-- C7 witness: on the validated state of `exText` the missing checks pass. -/
theorem c7_missing_checks_witness :
    (∀ s, missingResult stW ≠ some (.missingSite s)) ∧
    ((∀ pr ∈ stW.sitedays, 1 ≤ pr.2) → missingResult stW = none) :=
  c7_missing_checks exText stW (by decide) (by decide) (by decide)

/-- C7 counterexample: `gapDayText` passes every per-line State 0/1/2 check
and the post-scan count check (2 days × 1 site = 2 recorded pairs), yet the
final missing-(site, day) check fires — the recorded days are 2 and 0, and
day 0 escapes State 2's bounds checks because `1 ≤ day` is never tested. -/
theorem c7_missing_day_triggers : parse_input gapDayText = .error (.missingDay 1 1) := by
  decide

/-- Acceptance inversion for `parse_input`: every stage succeeded. -/
theorem parse_input_ok_inv {stdin : String} {st : VState}
    (hok : parse_input stdin = .ok st) :
    scanValid initVState 1 (pyLines stdin) = .ok st ∧ st.state = 2 ∧
      st.n_day * st.n_site = (st.sitedays.card : Int) ∧ missingResult st = none := by
  unfold parse_input at hok
  cases hs : scanValid initVState 1 (pyLines stdin) with
  | error e2 => rw [hs] at hok; exact Except.noConfusion hok
  | ok st0 =>
    simp only [hs] at hok
    split at hok
    · exact Except.noConfusion hok
    · rename_i hh1
      split at hok
      · exact Except.noConfusion hok
      · rename_i hh2
        cases hmr : missingResult st0 with
        | some e2 => simp only [hmr] at hok; exact Except.noConfusion hok
        | none =>
          simp only [hmr] at hok
          injection hok with h2
          subst h2
          exact ⟨rfl, not_not.mp hh1, not_not.mp hh2, hmr⟩

/-- A failing validator step reports, when its message carries a line
number, exactly the line number it was invoked with. -/
theorem stepLine_error_lnum {st : VState} {k : Nat} {line : String} {e : VErr}
    (h : stepLine st k line = .error e) {m : Nat} (hm : e.lnum? = some m) : m = k := by
  unfold stepLine state0Line state1Digit state1Other state2Line at h
  repeat' split at h
  all_goals
    first
      | exact Except.noConfusion h
      | (injection h with h2; subst h2; simp only [VErr.lnum?] at hm;
         first
           | exact (Option.some.inj hm).symm
           | exact Option.noConfusion hm)

/-- A failing scan fails at the first violating non-blank line: all earlier
lines scan through, the line itself is non-blank, and stepping it in the
state reached there yields exactly the reported error. -/
theorem scanValid_error : ∀ {lines : List String} {st : VState} {lnum : Nat} {e : VErr},
    scanValid st lnum lines = .error e →
    ∃ pre line rest stMid,
      lines = pre ++ line :: rest ∧
      scanValid st lnum pre = .ok stMid ∧
      pySplitWS line ≠ [] ∧
      stepLine stMid (lnum + pre.length) line = .error e := by
  intro lines
  induction lines with
  | nil =>
    intro st lnum e h
    exact Except.noConfusion h
  | cons line rest ih =>
    intro st lnum e h
    unfold scanValid at h
    cases hs : stepLine st lnum line with
    | error e2 =>
      rw [hs] at h
      injection h with h2
      subst h2
      refine ⟨[], line, rest, st, rfl, rfl, ?_, by simpa using hs⟩
      intro hb
      rw [stepLine, hb] at hs
      exact Except.noConfusion hs
    | ok st2 =>
      rw [hs] at h
      obtain ⟨pre2, line2, rest2, stMid, hdec, hpre, hnb, hstep⟩ := ih h
      refine ⟨line :: pre2, line2, rest2, stMid, by rw [hdec, List.cons_append], ?_, hnb, ?_⟩
      · unfold scanValid
        rw [hs]
        exact hpre
      · have : lnum + (line :: pre2).length = lnum + 1 + pre2.length := by
          simp
          omega
        rw [this]
        exact hstep

/-- C8: the validator accepts only inputs on which every scan and post-scan
check passes (first conjunct: acceptance implies the full-line scan, the
State-2 end condition, the count check and the missing checks all succeed);
and when it rejects with a line-numbered message, that number is the 1-based
position — counting all lines, blank or not — of the first non-blank line
that violates its state's rule, all earlier lines passing (second
conjunct).  Post-scan rejections carry no line number. -/
theorem c8_first_violation (stdin : String) :
    (∀ st, parse_input stdin = .ok st →
      scanValid initVState 1 (pyLines stdin) = .ok st ∧ st.state = 2 ∧
        st.n_day * st.n_site = (st.sitedays.card : Int) ∧ missingResult st = none) ∧
    (∀ e ℓ, parse_input stdin = .error e → VErr.lnum? e = some ℓ →
      ∃ pre line rest stMid,
        pyLines stdin = pre ++ line :: rest ∧
        pre.length + 1 = ℓ ∧
        scanValid initVState 1 pre = .ok stMid ∧
        pySplitWS line ≠ [] ∧
        stepLine stMid ℓ line = .error e) := by
  constructor
  · intro st hok
    exact parse_input_ok_inv hok
  · intro e ℓ herr hl
    unfold parse_input at herr
    cases hs : scanValid initVState 1 (pyLines stdin) with
    | error e2 =>
      rw [hs] at herr
      injection herr with h2
      subst h2
      obtain ⟨pre, line, rest, stMid, hdec, hpre, hnb, hstep⟩ := scanValid_error hs
      have hlnum : ℓ = 1 + pre.length := stepLine_error_lnum hstep hl
      refine ⟨pre, line, rest, stMid, hdec, by omega, hpre, hnb, ?_⟩
      rw [hlnum]
      exact hstep
    | ok st0 =>
      simp only [hs] at herr
      exfalso
      split at herr
      · injection herr with h2
        subst h2
        exact Option.noConfusion hl
      · split at herr
        · injection herr with h2
          subst h2
          exact Option.noConfusion hl
        · cases hmr : missingResult st0 with
          | some e2 =>
            simp only [hmr] at herr
            injection herr with h2
            subst h2
            rcases List.exists_of_findSome?_eq_some hmr with ⟨site, -, hf⟩
            split_ifs at hf with hf1
            all_goals
              first
                | (injection hf with hf2; subst hf2; exact Option.noConfusion hl)
                | (rcases List.exists_of_findSome?_eq_some hf with ⟨day, -, hg⟩;
                   split_ifs at hg with hg1
                   all_goals
                     first
                       | exact Option.noConfusion hg
                       | (injection hg with hg2; subst hg2; exact Option.noConfusion hl))
          | none =>
            simp only [hmr] at herr
            exact Except.noConfusion herr

/-- C8 witness: `badSiteText` has its first violation (site id 0) on line 2
and the validator reports exactly that line. -/
theorem c8_first_violation_witness :
    ∃ pre line rest stMid,
      pyLines badSiteText = pre ++ line :: rest ∧
      pre.length + 1 = 2 ∧
      scanValid initVState 1 pre = .ok stMid ∧
      pySplitWS line ≠ [] ∧
      stepLine stMid 2 line = .error (.invalidSiteId 2) :=
  (c8_first_violation badSiteText).2 (.invalidSiteId 2) 2 (by decide) (by decide)

/-! ## Constructor safety (lockstep with the validator) -/

/-- Abstract form of the count argument: if the full cross product is
contained in the recorded pair set and the count check holds, the two sets
are equal. -/
theorem sitedays_eq_product {st : VState} (hns : 0 ≤ st.n_site) (hnd : 0 ≤ st.n_day)
    (hsub : Finset.Icc 1 st.n_site ×ˢ Finset.Icc 1 st.n_day ⊆ st.sitedays)
    (hcount : st.n_day * st.n_site = (st.sitedays.card : Int)) :
    st.sitedays = Finset.Icc 1 st.n_site ×ˢ Finset.Icc 1 st.n_day := by
  refine (Finset.eq_of_subset_of_card_le hsub ?_).symm
  have e1 : st.n_site + 1 - 1 = st.n_site := by ring
  have e2 : st.n_day + 1 - 1 = st.n_day := by ring
  have hprod : (Finset.Icc (1 : Int) st.n_site ×ˢ Finset.Icc (1 : Int) st.n_day).card =
      st.n_site.toNat * st.n_day.toNat := by
    rw [Finset.card_product, Int.card_Icc, Int.card_Icc, e1, e2]
  have h3 : ((st.n_site.toNat * st.n_day.toNat : Nat) : Int) = (st.sitedays.card : Int) := by
    push_cast
    rw [Int.toNat_of_nonneg hns, Int.toNat_of_nonneg hnd, ← hcount]
    ring
  have h4 : st.n_site.toNat * st.n_day.toNat = st.sitedays.card := by exact_mod_cast h3
  omega

/-- `setAt` succeeds on an in-range index and preserves the length. -/
theorem setAt_ok {α : Type} {l : List α} {i : Int} (v : α)
    (h1 : 0 ≤ i) (h2 : i.toNat < l.length) :
    setAt l i v = some (l.set i.toNat v) ∧ (l.set i.toNat v).length = l.length := by
  constructor
  · unfold setAt
    rw [if_pos ⟨h1, h2⟩]
  · exact List.length_set l i.toNat v

/-- Lockstep simulation: when the validator scan succeeds and the final
state's maxima are bounded by `N` (sites) and the recorded pairs lie in the
cross product bounded by `N` and `D`, the constructor's unchecked scan over
the same lines succeeds as well, preserving `CRel`.  This is the heart of
the second-parse safety claim: each access the constructor performs is
justified by the check the validator made on that same line, except for the
day lower bound, which only the post-scan missing check guarantees (through
the `hsd` hypothesis). -/
theorem scan_ctor (N D : Int) : ∀ (lines : List String) (v : VState) (lnum : Nat)
    (st' : VState) (c : CState),
    scanValid v lnum lines = .ok st' →
    st'.n_site ≤ N →
    (∀ pr ∈ st'.sitedays, 1 ≤ pr.1 ∧ pr.1 ≤ N ∧ 1 ≤ pr.2 ∧ pr.2 ≤ D) →
    CRel N v c →
    ∃ c', ctorScan D c lines = some c' ∧ CRel N st' c' := by
  intro lines
  induction lines with
  | nil =>
    intro v lnum st' c h hn hsd hrel
    injection h with h2
    subst h2
    exact ⟨c, rfl, hrel⟩
  | cons line rest ih =>
    intro v lnum st' c h hn hsd hrel
    unfold scanValid at h
    cases hs : stepLine v lnum line with
    | error e => rw [hs] at h; exact Except.noConfusion h
    | ok v2 =>
      rw [hs] at h
      obtain ⟨hrel1, hlx, hly, hlv, hlt, hlb, hle⟩ := hrel
      obtain ⟨hm1, hm2, hm3, hm4⟩ := scanValid_mono h
      have hstep : ∃ c2, ctorLine D c line = some c2 ∧ CRel N v2 c2 := by
        unfold stepLine at hs
        split at hs
        · rename_i heq
          injection hs with h2
          subst h2
          exact ⟨c, by simp only [ctorLine, heq], hrel1, hlx, hly, hlv, hlt, hlb, hle⟩
        · rename_i t0 ts heq
          split_ifs at hs with hs0 hs1 hdig
          · obtain ⟨-, rfl⟩ := state0Line_ok hs
            refine ⟨{ c with st := 1 }, ?_, ?_⟩
            · simp only [ctorLine, heq]
              rw [hrel1, if_pos hs0]
            · exact ⟨rfl, hlx, hly, hlv, hlt, hlb, hle⟩
          · obtain ⟨t0', t1, t2, t3, t4, site, avenue, street, dt, vv, hlneq,
              hp0, hp1, hp2, hp3, hp4, hsz, hs1le, -, -, -, -, -, rfl⟩ := state1Digit_ok hs
            injection hlneq with e0 hts
            subst e0
            have hsiteN : site ≤ N := le_trans (le_trans (le_max_right _ _) hm1) hn
            have hb1 : 0 ≤ site - 1 := by omega
            have hb2 : (site - 1).toNat < N.toNat := by omega
            obtain ⟨hsx, hlx2⟩ := setAt_ok (l := c.x) avenue hb1 (by rw [hlx]; exact hb2)
            obtain ⟨hsy, hly2⟩ := setAt_ok (l := c.y) street hb1 (by rw [hly]; exact hb2)
            obtain ⟨hst2, hlt2⟩ := setAt_ok (l := c.time) dt hb1 (by rw [hlt]; exact hb2)
            obtain ⟨hsv, hlv2⟩ := setAt_ok (l := c.val) vv hb1 (by rw [hlv]; exact hb2)
            refine ⟨⟨c.st, c.x.set (site - 1).toNat avenue, c.y.set (site - 1).toNat street,
              c.val.set (site - 1).toNat vv, c.time.set (site - 1).toNat dt,
              c.begRow, c.endRow⟩, ?_, ?_⟩
            · simp only [ctorLine, heq, hts]
              rw [hrel1, if_neg (by omega), if_pos hs1, if_pos hdig]
              simp only [ctorSite, hp0, hp1, hp2, hp3, hp4, hsx, hsy, hst2, hsv]
              rw [hrel1]
            · refine ⟨hrel1, ?_, ?_, ?_, ?_, hlb, hle⟩
              · rw [hlx2]; exact hlx
              · rw [hly2]; exact hly
              · rw [hlv2]; exact hlv
              · rw [hlt2]; exact hlt
          · obtain ⟨-, -, rfl⟩ := state1Other_ok hs
            refine ⟨{ c with st := 2 }, ?_, ?_⟩
            · simp only [ctorLine, heq]
              rw [hrel1, if_neg (by omega), if_pos hs1, if_neg (by simp [hdig])]
            · exact ⟨rfl, hlx, hly, hlv, hlt, hlb, hle⟩
          · obtain ⟨t0', t1, t2, t3, site, day, bh, eh, hlneq,
              hp0, hp1, hp2, hp3, -, hs1le, hs2le, -, -, -, -, rfl⟩ := state2Line_ok hs
            injection hlneq with e0 hts
            subst e0
            have hpair : (site, day) ∈ st'.sitedays := hm3 (Finset.mem_insert_self _ _)
            obtain ⟨-, hsiteN, hday1, hdayD⟩ := hsd _ hpair
            have hb1 : 0 ≤ site - 1 := by omega
            have hb2 : (site - 1).toNat < N.toNat := by omega
            obtain ⟨hsb, hlb2⟩ := setAt_ok (l := c.begRow) bh hb1 (by rw [hlb]; exact hb2)
            obtain ⟨hse, hle2⟩ := setAt_ok (l := c.endRow) eh hb1 (by rw [hle]; exact hb2)
            refine ⟨⟨c.st, c.x, c.y, c.val, c.time, c.begRow.set (site - 1).toNat bh,
              c.endRow.set (site - 1).toNat eh⟩, ?_, ?_⟩
            · simp only [ctorLine, heq, hts]
              rw [hrel1, if_neg (by omega), if_neg (by omega)]
              simp only [ctorWindow, hp0, hp1, hp2, hp3]
              rw [if_pos (by omega)]
              simp only [hsb, hse]
              rw [hrel1]
            · refine ⟨hrel1, hlx, hly, hlv, hlt, ?_, ?_⟩
              · rw [hlb2]; exact hlb
              · rw [hle2]; exact hle
      obtain ⟨c2, hline, hrel2⟩ := hstep
      obtain ⟨c', hscan2, hrel3⟩ := ih v2 (lnum + 1) st' c2 h hn hsd hrel2
      refine ⟨c', ?_, hrel3⟩
      unfold ctorScan
      rw [hline]
      exact hscan2

/-- C10: for every raw text the validator accepts, the constructor's
unchecked second parse never goes out of range: every digit-leading State-1
line supplies the five tokens and a zero-based site index inside
`[0, n_site)`, and every State-2 line supplies a site index in
`[0, n_site)` and a day index in `[0, n_day)` (the day lower bound being
guaranteed by the post-scan missing-pair check), so the construction
succeeds. -/
theorem c10_constructor_safe (stdin : String)
    (h : exceptOk (parse_input stdin) = true) :
    (buildProblem stdin).isSome = true := by
  unfold buildProblem
  cases hp : parse_input stdin with
  | error e => rw [hp] at h; exact absurd h (by simp [exceptOk])
  | ok st =>
    obtain ⟨hscan, hstate, hcount, hmr⟩ := parse_input_ok_inv hp
    have hi : VInv st := scanValid_inv hscan initVState_inv
    have hns : 0 ≤ st.n_site := hi.1
    have hnd : 0 ≤ st.n_day := hi.2.1
    have hsub : Finset.Icc 1 st.n_site ×ˢ Finset.Icc 1 st.n_day ⊆ st.sitedays := by
      intro pr hpr
      obtain ⟨hprs, hprd⟩ := Finset.mem_product.mp hpr
      rw [Finset.mem_Icc] at hprs hprd
      have hmem : pr.1 ∈ intRange1 st.n_site := by
        rw [mem_intRange1]
        omega
      have hf := (List.findSome?_eq_none_iff.mp hmr) pr.1 hmem
      by_cases hin : pr.1 ∈ st.sites
      · rw [if_neg (not_not_intro hin)] at hf
        have hdmem : pr.2 ∈ intRange1 st.n_day := by
          rw [mem_intRange1]
          omega
        have hg := (List.findSome?_eq_none_iff.mp hf) pr.2 hdmem
        by_cases hpin : (pr.1, pr.2) ∈ st.sitedays
        · exact hpin
        · rw [if_pos hpin] at hg
          exact Option.noConfusion hg
      · rw [if_pos hin] at hf
        exact Option.noConfusion hf
    have hsd := sitedays_eq_product hns hnd hsub hcount
    have hbounds : ∀ pr ∈ st.sitedays, 1 ≤ pr.1 ∧ pr.1 ≤ st.n_site ∧
        1 ≤ pr.2 ∧ pr.2 ≤ st.n_day := by
      intro pr hpr
      rw [hsd, Finset.mem_product, Finset.mem_Icc, Finset.mem_Icc] at hpr
      exact ⟨hpr.1.1, hpr.1.2, hpr.2.1, hpr.2.2⟩
    have hrel : CRel st.n_site initVState (initCState st.n_site) := by
      refine ⟨rfl, ?_, ?_, ?_, ?_, ?_, ?_⟩ <;> exact List.length_replicate _ _
    obtain ⟨c', hctor, -⟩ :=
      scan_ctor st.n_site st.n_day (pyLines stdin) initVState 1 st (initCState st.n_site)
        hscan (le_refl _) hbounds hrel
    show (OptimalTour.ofStdin st.n_site st.n_day stdin).isSome = true
    unfold OptimalTour.ofStdin
    rw [hctor]
    rfl

/-- C10 witness: the valid text `exText` builds successfully end to end. -/
theorem c10_constructor_safe_witness : (buildProblem exText).isSome = true :=
  c10_constructor_safe exText (by decide)

/-! ## The window-table aliasing bug (C1) -/

/-- C1 (code bug): `aliasText` gives site 1 the day-1 window 0..23 and the
day-2 window 12..12, and the validator accepts it.  Because
`self.beghr = [[0] * n_site] * n_day` aliases one row across all days, the
stored day-1 window is the LAST parsed record's 12..12, not 0..23 — so the
windows are not stored independently per day — and scoring the tour that
visits site 1 on day 1 (60 minutes inside 0..23) is wrongly rejected as
insufficient time. -/
theorem c1_alias_bug :
    (buildProblem aliasText).map (fun p => (p.beghr 0 0, p.endhr 0 0)) = some (12, 12) ∧
    (buildProblem aliasText).map (fun p => parse_output p "1\n ") =
      some (.error (.insufficientTime 1)) :=
  ⟨by decide, by decide⟩

